import Mathlib

/-!
Verification development for the `legend-pygeom-tools` repository.

The definitions below are shallow embeddings of the Python code in
`src/pygeomtools/viewer.py` and of the detector-metadata helpers exercised by
`tests/test_detectors.py`.  Python strings are Lean `String`s, Python dicts
that are iterated in insertion order become association lists, regular
expressions become an inductive regex type with Brzozowski-derivative
matching, and Python exceptions become `Except` values.
-/

namespace PyGeomTools

/-! ## Regular expressions

`_color_override_matches` calls `re.match(f"{pattern}$", name)`.  Python's
`re.match` looks for a match of the pattern that starts at the beginning of
the string; the match may end anywhere.  Two Python subtleties must be kept:

* `$` is an assertion that succeeds at the end of the string **and** at the
  position just before a single trailing newline (`re.match("a$", "a\n")`
  succeeds);
* the `$` is appended to the pattern *text*, and since `|` has the lowest
  precedence the anchor attaches only to the last top-level alternative
  (`re.match("a|b$", "ax")` succeeds through the un-anchored first
  alternative).

Patterns are embedded as parse trees: an inductive regex type with an
explicit end-of-string anchor `eos` and a grouping constructor `grp` for
parenthesised sub-patterns (so that a top-level `alt` always stands for an
un-parenthesised top-level `|` of the pattern text).  Matching uses
Brzozowski derivatives in which the nullability of `eos` depends on whether
`$` holds at the current position of the subject string. -/

/-- Abstract syntax (parse tree) of the regular expressions used as
color-override keys.  `eos` is the anchor `$`; `grp` is a parenthesised
group `(...)`, semantically transparent. -/
inductive RE where
  | emp : RE
  | eps : RE
  | chr : Char → RE
  | alt : RE → RE → RE
  | cat : RE → RE → RE
  | star : RE → RE
  | grp : RE → RE
  | eos : RE
deriving DecidableEq, Repr

/-- Does the Python `$` assertion hold at a position whose remaining input
is `rest`?  It holds at the end of the string and just before a single
trailing newline. -/
def dollarOk : List Char → Bool
  | [] => true
  | [c] => c == '\n'
  | _ :: _ :: _ => false

/-- Nullability of a regex at a position of the subject string; `dollar`
says whether the `$` assertion holds at that position. -/
def nullB (dollar : Bool) : RE → Bool
  | .emp => false
  | .eps => true
  | .chr _ => false
  | .alt a b => nullB dollar a || nullB dollar b
  | .cat a b => nullB dollar a && nullB dollar b
  | .star _ => true
  | .grp a => nullB dollar a
  | .eos => dollar

/-- Brzozowski derivative with respect to one character consumed at a
position where the `$` assertion holds iff `dollar`; the nullability test
inside `cat` refers to that same position, and `eos` never consumes. -/
def derivE (dollar : Bool) (r : RE) (c : Char) : RE :=
  match r with
  | .emp => .emp
  | .eps => .emp
  | .chr d => if c = d then .eps else .emp
  | .alt a b => .alt (derivE dollar a c) (derivE dollar b c)
  | .cat a b =>
      .alt (.cat (derivE dollar a c) b)
        (if nullB dollar a then derivE dollar b c else .emp)
  | .star a => .cat (derivE dollar a c) (.star a)
  | .grp a => derivE dollar a c
  | .eos => .emp

/-- Semantics of Python's `re.match(r, s)`: does `r` match some prefix of
`s`, the match starting at position 0?  At each position the `$` context is
computed from the remaining input of the full subject string. -/
def pyReMatch : RE → List Char → Bool
  | r, [] => nullB true r
  | r, c :: s => nullB (dollarOk (c :: s)) r || pyReMatch (derivE (dollarOk (c :: s)) r c) s

/-- `matchTo r s t`: starting at the position of `s` inside the subject
string, `r` matches exactly the characters down to the suffix `t` (so the
consumed part is `s` minus `t`), with the `$` contexts taken from the
subject string.  `matchTo r s []` is whole-remaining-string matching and
`matchTo r s [c]` is matching all but a final character `c`. -/
def matchTo : RE → List Char → List Char → Bool
  | r, [], t => if t = ([] : List Char) then nullB true r else false
  | r, c :: s, t =>
      if t = c :: s then nullB (dollarOk (c :: s)) r
      else matchTo (derivE (dollarOk (c :: s)) r c) s t

/-- The effect, on the parse tree, of textually appending `"$"` to the
pattern: `|` has the lowest precedence, so the anchor attaches to the last
top-level alternative only. -/
def appendDollar : RE → RE
  | .alt a b => .alt a (appendDollar b)
  | r => .cat r .eos

/-- The pattern text has no top-level alternation (its parse tree is not an
`alt`). -/
def noTopAlt : RE → Bool
  | .alt _ _ => false
  | _ => true

/-- A color value attached to a volume: Python `False` or an RGBA tuple. -/
inductive ColorVal where
  | falseVal : ColorVal
  | rgba : ℚ → ℚ → ℚ → ℚ → ColorVal
deriving DecidableEq, Repr

/-- Embedding of `_color_override_matches` (viewer.py, lines 252-256): walk
the overrides dict in insertion order and return the color of the first
pattern for which `re.match(f"{pattern}$", name)` succeeds, the `$` being
appended to the pattern text. -/
def color_override_matches : List (RE × ColorVal) → String → Option ColorVal
  | [], _ => none
  | (pattern, color) :: rest, name =>
      if pyReMatch (appendDollar pattern) name.data then some color
      else color_override_matches rest name

/-- The Python exceptions that the embedded code can raise.
`unboundLocal` stands for `UnboundLocalError`, `indexError` for the
`IndexError` raised by an out-of-range list subscript, `valueError` for
`ValueError(msg)`. -/
inductive PyError where
  | unboundLocal : PyError
  | indexError : PyError
  | valueError : String → PyError
deriving DecidableEq, Repr

deriving instance DecidableEq for Except

/-! ## CLI validation of `--add-points-columns` (viewer.py, lines 354-363)

```
table_parts = [c.strip() for c in args.add_points_columns.split(":")]
point_table = table_parts[0]
point_columns = [c.strip() for c in table_parts[1].split(",")]
if len(table_parts) != 2 or len(point_columns) != 3:
    msg = "invalid parameter for points"
    raise ValueError(msg)
```

Note that `table_parts[1]` is evaluated before the length check. -/

/-- Helper for `pySplit`, working on the character list. -/
def pySplitAux (sep : Char) : List Char → List (List Char)
  | [] => [[]]
  | c :: rest =>
      match pySplitAux sep rest with
      | [] => [[]]
      | h :: t => if c = sep then [] :: h :: t else (c :: h) :: t

/-- Python `str.split(sep)` for a one-character separator: split at every
occurrence, keeping empty pieces; the result is never empty. -/
def pySplit (sep : Char) (s : String) : List String :=
  (pySplitAux sep s.data).map fun cs => String.mk cs

/-- Python `str.strip()`: remove leading and trailing whitespace. -/
def pyStrip (s : String) : String :=
  String.mk (((s.data.dropWhile Char.isWhitespace).reverse.dropWhile
    Char.isWhitespace).reverse)

/-- Embedding of the `--add-points-columns` handling in `vis_gdml_cli`.
Returns the parsed `(point_table, point_columns)` pair or the Python
exception the code raises. -/
def parse_points_columns (s : String) : Except PyError (String × List String) :=
  let table_parts := (pySplit ':' s).map pyStrip
  match table_parts with
  | [] => Except.error PyError.indexError
  | [_point_table] => Except.error PyError.indexError
  | point_table :: second :: _ =>
      let point_columns := (pySplit ',' second).map pyStrip
      if table_parts.length != 2 || point_columns.length != 3 then
        Except.error (PyError.valueError "invalid parameter for points")
      else Except.ok (point_table, point_columns)

/-! ## Camera control and the keyboard interactor

The VTK camera state touched by `_set_camera` (viewer.py, lines 147-176). -/

/-- The camera parameters manipulated by `_set_camera`. -/
structure Camera where
  focal : ℚ × ℚ × ℚ
  up : ℚ × ℚ × ℚ
  pos : ℚ × ℚ × ℚ
  parallelProjection : Bool
  parallelScale : ℚ
deriving DecidableEq, Repr

/-- The `parallel` argument of `_set_camera` is `bool | int` in Python. -/
inductive ParallelArg where
  | pbool : Bool → ParallelArg
  | pint : Int → ParallelArg
deriving DecidableEq, Repr

/-- Python `int(parallel)`. -/
def ParallelArg.toInt : ParallelArg → Int
  | .pbool b => if b then 1 else 0
  | .pint n => n

/-- VTK `camera.Dolly(d)`: move the camera along the view direction so that
its distance to the focal point is divided by `d`. -/
def dollyMove (pos focal : ℚ × ℚ × ℚ) (d : ℚ) : ℚ × ℚ × ℚ :=
  (focal.1 + (pos.1 - focal.1) / d,
   focal.2.1 + (pos.2.1 - focal.2.1) / d,
   focal.2.2 + (pos.2.2 - focal.2.2) / d)

/-- Embedding of `_set_camera` (viewer.py, lines 147-176): apply the
optional focus, up, position, dolly and parallel-projection arguments in
source order. -/
def set_camera (cam : Camera) (focus : Option (ℚ × ℚ × ℚ)) (up : Option (ℚ × ℚ × ℚ))
    (pos : Option (ℚ × ℚ × ℚ)) (dolly : Option ℚ) (parallel : Option ParallelArg) :
    Camera :=
  let cam := match focus with
    | some f => { cam with focal := f }
    | none => cam
  let cam := match up with
    | some u => { cam with up := u }
    | none => cam
  let cam := match pos with
    | some p => { cam with pos := p }
    | none => cam
  let cam := match dolly with
    | some d =>
        if cam.parallelProjection then { cam with parallelScale := 1 / d * cam.parallelScale }
        else { cam with pos := dollyMove cam.pos cam.focal d }
    | none => cam
  let cam := match parallel with
    | some par =>
        let cam := { cam with parallelProjection := decide (par.toInt > 0) }
        let cam := if cam.parallelScale == 1 then { cam with parallelScale := 2000 } else cam
        match par with
        | .pbool _ => cam
        | .pint n => { cam with parallelScale := (n : ℚ) }
    | none => cam
  cam

/-- One entry of the scene definition's `scenes` list: an optional up
vector, camera position, focal point, and a parallel-projection parameter
defaulting to `False` (`sc.get("parallel", False)`). -/
structure ScenePreset where
  up : Option (ℚ × ℚ × ℚ)
  camera : Option (ℚ × ℚ × ℚ)
  focus : Option (ℚ × ℚ × ℚ)
  parallel : ParallelArg
deriving DecidableEq, Repr

/-- The viewer state touched by `_KeyboardInteractor.keypress`: the axes
actor's visibility, the optional points actor (`None` or its visibility),
and the active camera. -/
structure VState where
  axesVisible : Bool
  points : Option Bool
  camera : Camera
deriving DecidableEq, Repr

/-- Embedding of the function-key loop of `keypress` (viewer.py, lines
118-128).  Faithful to the source: `sc_index` starts at 1 and is
incremented only inside the matched branch.

```
sc_index = 1
for sc in self.scenes.get("scenes", []):
    if key == f"F{sc_index}":
        _set_camera(...)
        sc_index += 1
```
-/
def fkeyLoop (key : String) : List ScenePreset → Nat → Camera → Camera
  | [], _, cam => cam
  | sc :: rest, sc_index, cam =>
      if key == "F" ++ toString sc_index then
        fkeyLoop key rest (sc_index + 1)
          (set_camera cam sc.focus sc.up sc.camera none (some sc.parallel))
      else fkeyLoop key rest sc_index cam

/-- The camera-only tail of `keypress` (branches `u`, `t`, `p`, the
function-key loop, `plus`, `minus`; the `s` and `i` branches do not change
the modelled state). -/
def keypressTail (scenes : List ScenePreset) (key : String) (st : VState) : VState :=
  let st := if key == "u" then
      { st with camera :=
          set_camera st.camera none (some (0, 0, 1)) (some (-20000, 0, 0)) none none }
    else st
  let st := if key == "t" then
      { st with camera :=
          set_camera st.camera none (some (1, 0, 0)) (some (0, 0, 20000)) none none }
    else st
  let st := if key == "p" then
      { st with camera :=
          (set_camera st.camera none none none none
            (some (ParallelArg.pbool (!st.camera.parallelProjection)))) }
    else st
  let st := { st with camera := fkeyLoop key scenes 1 st.camera }
  let st := if key == "plus" then
      { st with camera := set_camera st.camera none none none (some (11 / 10)) none }
    else st
  let st := if key == "minus" then
      { st with camera := set_camera st.camera none none none (some (9 / 10)) none }
    else st
  st

/-- Embedding of `_KeyboardInteractor.keypress` (viewer.py, lines 94-144).
The local variable `ax` is modelled explicitly: it is unbound at function
entry and only the `a` branch assigns it.  The `v` branch reads
`ax.GetVisibility()`, which raises `UnboundLocalError` when `ax` is
unbound; a raised exception aborts the handler. -/
def keypress (scenes : List ScenePreset) (key : String) (st : VState) :
    Except PyError VState :=
  let axLocal : Option Unit := none
  let p := if key == "a" then
      (({ st with axesVisible := !st.axesVisible } : VState), (some () : Option Unit))
    else (st, axLocal)
  let st := p.1
  let axLocal := p.2
  if key == "v" && st.points.isSome then
    match axLocal with
    | none => Except.error PyError.unboundLocal
    | some _ => Except.ok (keypressTail scenes key { st with points := some (!st.axesVisible) })
  else Except.ok (keypressTail scenes key st)

/-! ## `_color_recursive` (viewer.py, lines 259-294)

A logical volume carries a name, an optional `pygeom_color_rgba` attribute
and a list of daughter physical volumes; each daughter physical volume has a
`type` string and a logical volume.  The per-volume vis-options of the
viewer are modelled as a map from volume name to the list of per-instance
`VisOptions`. -/

/-- The fields of a pyg4ometry `VisOptions` object touched by
`_color_recursive`. -/
structure VisOptions where
  colour : ℚ × ℚ × ℚ
  alpha : ℚ
  visible : Bool
deriving DecidableEq, Repr

/-- `viewer.instanceVisOptions`, keyed by logical-volume name. -/
abbrev VisState := String → List VisOptions

/-- A logical volume: name, optional `pygeom_color_rgba` attribute, and
daughter physical volumes given as (type, logical volume) pairs. -/
inductive LVol where
  | mk : String → Option ColorVal → List (String × LVol) → LVol

/-- The volume name. -/
def LVol.name : LVol → String
  | .mk n _ _ => n

/-- The optional `pygeom_color_rgba` attribute. -/
def LVol.colorAttr : LVol → Option ColorVal
  | .mk _ a _ => a

/-- The daughter physical volumes as (type, logical volume) pairs. -/
def LVol.daughters : LVol → List (String × LVol)
  | .mk _ _ d => d

/-- The per-volume body of `_color_recursive` (viewer.py, lines 277-290):
compute the color override for the volume name, and if the volume has a
`pygeom_color_rgba` attribute or an override matched, recolor every
instance vis-option of that volume, the override taking precedence. -/
def applyColor (overrides : List (RE × ColorVal)) (vs : VisState) (lv : LVol) :
    VisState :=
  let color_override := color_override_matches overrides lv.name
  if lv.colorAttr.isSome || color_override.isSome then
    let color_rgba := if lv.colorAttr.isSome then lv.colorAttr else none
    let color_rgba := if color_override.isSome then color_override else color_rgba
    match color_rgba with
    | some ColorVal.falseVal =>
        Function.update vs lv.name
          ((vs lv.name).map fun vis => { vis with alpha := 0, visible := false })
    | some (ColorVal.rgba r g b a) =>
        Function.update vs lv.name
          ((vs lv.name).map fun vis =>
            { vis with colour := (r, g, b), alpha := a, visible := decide (0 < a) })
    | none => vs
  else vs

mutual

/-- Embedding of the recursion of `_color_recursive` (viewer.py, lines
259-294), without the level-0 de-aliasing step (modelled separately):
recolor the volume, then recurse into daughters whose type is
`"placement"`. -/
def color_recursive (overrides : List (RE × ColorVal)) : LVol → VisState → VisState
  | .mk n a ds, vs =>
      colorDaughters overrides ds (applyColor overrides vs (.mk n a ds))

/-- The daughter loop of `_color_recursive`:
`for pv in lv.daughterVolumes: if pv.type == "placement": recurse`. -/
def colorDaughters (overrides : List (RE × ColorVal)) :
    List (String × LVol) → VisState → VisState
  | [], vs => vs
  | (ptype, dlv) :: rest, vs =>
      colorDaughters overrides rest
        (if ptype == "placement" then color_recursive overrides dlv vs else vs)

end

mutual

/-- The volumes visited by `_color_recursive`: the root and the volumes
reachable through chains of daughters of type `"placement"`, in visit
order. -/
def reachable : LVol → List LVol
  | .mk n a ds => .mk n a ds :: reachableDaughters ds

/-- The volumes visited below a daughter list. -/
def reachableDaughters : List (String × LVol) → List LVol
  | [] => []
  | (ptype, dlv) :: rest =>
      (if ptype == "placement" then reachable dlv else []) ++ reachableDaughters rest

end

/-- The effective color value used for a volume named `n` carrying the
attribute `attr`: the matching override when one exists, otherwise the
attribute. -/
def effColor (overrides : List (RE × ColorVal)) (n : String)
    (attr : Option ColorVal) : Option ColorVal :=
  match color_override_matches overrides n with
  | some c => some c
  | none => attr

/-- Concrete vis-state used by the witnesses below. -/
def vsW : VisState := fun _ => [⟨(0, 0, 0), 1, true⟩]

/-- Concrete volume tree used by the C5 witness: the root `a` has a
`placement` daughter `b` and a `replica` daughter `c`. -/
def lvW : LVol :=
  .mk "a" none [("placement", .mk "b" none []), ("replica", .mk "c" none [])]

/-- Concrete overrides list used by the C6 witness. -/
def ovW : List (RE × ColorVal) := [(RE.chr 'x', ColorVal.rgba 1 0 0 (1 / 2))]

/-! ## Detector metadata (claims C1, C7, C8)

The module `pygeomtools/detectors.py` (and the write helper `write_pygeom`)
is not part of the provided sources; only its tests are.  The definitions in
this section are modelled from the spec, with the concrete behaviour pinned
down by `tests/test_detectors.py`. -/

/-- Modelled from the spec: the `RemageDetectorInfo` metadata attached to a
physical volume by `set_pygeom_active_detector` — the detector type, the
detector uid, and an optional free-form metadata mapping (modelled as an
association list). -/
structure RemageDetectorInfo where
  detector_type : String
  uid : Nat
  metadata : Option (List (String × String))
deriving DecidableEq, Repr

/-- A physical-volume tree node: the physical volume's name, the optional
active-detector info attached to it, and its daughter physical volumes. -/
inductive PTree where
  | mk : String → Option RemageDetectorInfo → List PTree → PTree

/-- The physical volume name. -/
def PTree.pvName : PTree → String
  | .mk n _ _ => n

/-- The attached active-detector info, when any. -/
def PTree.det : PTree → Option RemageDetectorInfo
  | .mk _ d _ => d

/-- The daughter physical volumes. -/
def PTree.children : PTree → List PTree
  | .mk _ _ c => c

/-- Modelled from the spec: a geometry registry, as far as the
detector-metadata round-trip is concerned — the physical-volume tree below
the world volume, plus the pygeomtools auxiliary data when the registry was
read back from a GDML file (`none` when the file carried no such auxiliary
structure). -/
structure Registry where
  pvs : List PTree
  sensAux : Option (List (String × RemageDetectorInfo))

mutual

/-- All physical volumes with attached active-detector info, in preorder. -/
def collectPV : PTree → List (String × RemageDetectorInfo)
  | .mk n d cs =>
      (match d with
        | some i => [(n, i)]
        | none => []) ++ collectPVs cs

/-- `collectPV` over a forest. -/
def collectPVs : List PTree → List (String × RemageDetectorInfo)
  | [] => []
  | t :: ts => collectPV t ++ collectPVs ts

end

mutual

/-- All physical volumes with their optional detector info, in preorder
(spec-side description of the traversal). -/
def flattenPV : PTree → List (String × Option RemageDetectorInfo)
  | .mk n d cs => (n, d) :: flattenPVs cs

/-- `flattenPV` over a forest. -/
def flattenPVs : List PTree → List (String × Option RemageDetectorInfo)
  | [] => []
  | t :: ts => flattenPV t ++ flattenPVs ts

end

mutual

/-- Drop the Python-side detector attributes, as a GDML write/read cycle
does. -/
def stripDet : PTree → PTree
  | .mk n _ cs => .mk n none (stripDets cs)

/-- `stripDet` over a forest. -/
def stripDets : List PTree → List PTree
  | [] => []
  | t :: ts => stripDet t :: stripDets ts

end

/-- A GDML file: the geometry (which does not retain Python attribute
bags) plus the optional pygeomtools auxiliary block with the serialized
per-volume detector records `(name, detector type, uid, metadata)`. -/
structure GDMLFile where
  geom : List PTree
  aux : Option (List (String × String × Nat × Option (List (String × String))))

/-- Modelled from the spec: `write_pygeom` writes the geometry and
serializes every attached `RemageDetectorInfo` into the GDML
auxiliary-value mechanism (always emitting the pygeomtools auxiliary
block, even when no volume is annotated). -/
def write_pygeom (r : Registry) : GDMLFile :=
  { geom := stripDets r.pvs
    aux := some ((collectPVs r.pvs).map fun p =>
      (p.1, p.2.detector_type, p.2.uid, p.2.metadata)) }

/-- The plain pyg4ometry GDML writer: same geometry, no pygeomtools
auxiliary block. -/
def plain_gdml_write (r : Registry) : GDMLFile :=
  { geom := stripDets r.pvs, aux := none }

/-- Modelled from the spec: reading a GDML file back into a registry
recovers the geometry and parses the pygeomtools auxiliary block back into
detector records when the block is present. -/
def gdml_read (f : GDMLFile) : Registry :=
  { pvs := f.geom
    sensAux := f.aux.map (List.map fun q => (q.1, RemageDetectorInfo.mk q.2.1 q.2.2.1 q.2.2.2)) }

/-- The error raised by the metadata getters: Python `RuntimeError`. -/
inductive DetError where
  | runtimeError : DetError
deriving DecidableEq, Repr

/-- Modelled from the spec: `get_sensvol_metadata` reads the metadata
mapping of the named sensitive volume from the registry's pygeomtools
auxiliary data; it raises `RuntimeError` when the registry has no such
auxiliary data (file not written by `write_pygeom`), and returns `none`
for a volume without attached metadata. -/
def get_sensvol_metadata (r : Registry) (name : String) :
    Except DetError (Option (List (String × String))) :=
  match r.sensAux with
  | none => Except.error DetError.runtimeError
  | some l =>
      Except.ok ((l.find? fun q => q.1 == name).bind fun q => q.2.metadata)

/-- Modelled from the spec: `get_all_sensvols` returns the mapping from
annotated volume name to its detector info, raising `RuntimeError` when
the registry has no pygeomtools auxiliary data. -/
def get_all_sensvols (r : Registry) :
    Except DetError (List (String × RemageDetectorInfo)) :=
  match r.sensAux with
  | none => Except.error DetError.runtimeError
  | some l => Except.ok l

/-- Modelled from the spec: the macro line registering one sensitive
detector with remage. -/
def registerLine (n : String) (i : RemageDetectorInfo) : String :=
  "/RMG/Geometry/RegisterDetector " ++ i.detector_type.capitalize ++ " " ++ n
    ++ " " ++ toString i.uid

/-- Modelled from the spec: the lines of the macro file written by
`generate_detector_macro` — one `RegisterDetector` line per physical
volume with attached active-detector info, in traversal order. -/
def detectorMacLines (r : Registry) : List String :=
  (collectPVs r.pvs).map fun p => registerLine p.1 p.2

/-- Modelled from the spec: the full text of the macro file written by
`generate_detector_macro`. -/
def detectorMacText (r : Registry) : String :=
  String.intercalate "\n" (detectorMacLines r)

/-- All physical volume names of a forest, in preorder. -/
def allPVNames (ts : List PTree) : List String :=
  (flattenPVs ts).map Prod.fst

/-- The detector info attached to the (unique) volume of a given name:
find the volume in preorder and return its attached info, `none` when the
volume carries none or does not exist. -/
def findDet (ts : List PTree) (name : String) : Option RemageDetectorInfo :=
  ((flattenPVs ts).find? fun p => p.1 == name).bind fun p => p.2

/-- Concrete registry mirroring `test_detector_info`: two annotated
scintillator volumes, each containing an annotated detector volume. -/
def rW1 : Registry :=
  ⟨[PTree.mk "scint1" (some ⟨"scintillator", 3, none⟩)
      [PTree.mk "det1" (some ⟨"optical", 1, some [("some", "metadata")]⟩) []],
    PTree.mk "scint2" (some ⟨"scintillator", 3, none⟩)
      [PTree.mk "det2" (some ⟨"germanium", 2, some [("other", "other metadata")]⟩) []]],
   none⟩

/-- Concrete registry mirroring `test_no_detector_info`: one volume,
nothing annotated. -/
def rW2 : Registry := ⟨[PTree.mk "scint1" none []], none⟩

/-! ## Level-0 de-aliasing of `VisOptions` (claim C10)

At recursion level 0, `_color_recursive` first replaces every entry of
`viewer.instanceVisOptions` that is identical (`is`) to the viewer's shared
default `VisOptions` object with `copy.copy` of it (viewer.py, lines
262-269).  Object identity is modelled with an explicit heap: `VisOptions`
objects live at `Nat` references, `instanceVisOptions` stores references,
and `copy.copy` allocates a fresh reference carrying the same value. -/

/-- The viewer state relevant to the de-aliasing step: the heap of
`VisOptions` objects, the next fresh reference, the reference of the shared
default `VisOptions` object, and `instanceVisOptions` as a map from volume
name to the list of per-instance references. -/
structure HeapViewer where
  heap : Nat → VisOptions
  next : Nat
  defaultRef : Nat
  ivo : List (String × List Nat)

/-- One volume's list in the level-0 loop:
`[copy.copy(vo) if vo is default_vo else vo for vo in ...]`.  A reference
equal to the default is replaced by a freshly allocated copy of the
default's value; other references are kept. -/
def decoupleRefs (dflt : Nat) : (Nat → VisOptions) → Nat → List Nat →
    (Nat → VisOptions) × Nat × List Nat
  | h, nx, [] => (h, nx, [])
  | h, nx, r :: rs =>
      if r = dflt then
        let res := decoupleRefs dflt (Function.update h nx (h dflt)) (nx + 1) rs
        (res.1, res.2.1, nx :: res.2.2)
      else
        let res := decoupleRefs dflt h nx rs
        (res.1, res.2.1, r :: res.2.2)

/-- The level-0 loop over all volumes of `viewer.instanceVisOptions`. -/
def decoupleVols (dflt : Nat) : (Nat → VisOptions) → Nat → List (String × List Nat) →
    (Nat → VisOptions) × Nat × List (String × List Nat)
  | h, nx, [] => (h, nx, [])
  | h, nx, (vol, rs) :: rest =>
      let r1 := decoupleRefs dflt h nx rs
      let r2 := decoupleVols dflt r1.1 r1.2.1 rest
      (r2.1, r2.2.1, (vol, r1.2.2) :: r2.2.2)

/-- The complete level-0 de-aliasing step of `_color_recursive`. -/
def decouple (v : HeapViewer) : HeapViewer :=
  let r := decoupleVols v.defaultRef v.heap v.next v.ivo
  { heap := r.1, next := r.2.1, defaultRef := v.defaultRef, ivo := r.2.2 }

/-- All references stored in `instanceVisOptions`, volume by volume. -/
def allRefs (ivo : List (String × List Nat)) : List Nat :=
  (ivo.map Prod.snd).flatten

/-- The reference list of the `i`-th volume. -/
def refsAt (ivo : List (String × List Nat)) (i : Nat) : List Nat :=
  (ivo.map Prod.snd).getD i []

/-- The `j`-th reference of the `i`-th volume. -/
def refAt (ivo : List (String × List Nat)) (i j : Nat) : Nat :=
  (refsAt ivo i).getD j 0

/-- Reference-level effect of `decoupleRefs`, independent of the heap:
the replaced references and the final allocation counter. -/
def freshenRefs (dflt : Nat) : Nat → List Nat → List Nat × Nat
  | nx, [] => ([], nx)
  | nx, r :: rs =>
      if r = dflt then
        (nx :: (freshenRefs dflt (nx + 1) rs).1, (freshenRefs dflt (nx + 1) rs).2)
      else
        (r :: (freshenRefs dflt nx rs).1, (freshenRefs dflt nx rs).2)

/-- Concrete viewer used by the C10 witness: two volumes, the first
sharing the default object (reference 0), the second with its own object. -/
def hv0 : HeapViewer :=
  ⟨fun _ => ⟨(0, 0, 0), 1, true⟩, 2, 0, [("a", [0]), ("b", [1])]⟩

theorem pyReMatch_emp : ∀ s : List Char, pyReMatch RE.emp s = false
  | [] => rfl
  | _ :: s => by
      simp only [pyReMatch, nullB, derivE, Bool.false_or]
      exact pyReMatch_emp s

theorem pyReMatch_alt : ∀ (s : List Char) (a b : RE),
    pyReMatch (RE.alt a b) s = (pyReMatch a s || pyReMatch b s)
  | [], a, b => rfl
  | c :: s, a, b => by
      simp only [pyReMatch, nullB, derivE]
      rw [pyReMatch_alt s]
      simp only [Bool.or_assoc, Bool.or_left_comm]

/-- Appending the `$` anchor to a start-anchored (`re.match`-style) search
succeeds exactly when the pattern matches the whole remaining string or all
of it except a single trailing newline. -/
theorem pyReMatch_cat_eos : ∀ (s : List Char) (p : RE),
    pyReMatch (RE.cat p RE.eos) s = (matchTo p s [] || matchTo p s ['\n'])
  | [], p => by
      simp [pyReMatch, nullB, matchTo]
  | c :: s, p => by
      have hderiv : derivE (dollarOk (c :: s)) (RE.cat p RE.eos) c =
          RE.alt (RE.cat (derivE (dollarOk (c :: s)) p c) RE.eos) RE.emp := by
        simp [derivE, ite_self]
      rw [pyReMatch, hderiv, pyReMatch_alt, pyReMatch_emp, Bool.or_false,
        pyReMatch_cat_eos s (derivE (dollarOk (c :: s)) p c)]
      rcases s with _ | ⟨c2, s2⟩
      · by_cases hc : c = '\n'
        · subst hc
          simp [dollarOk, nullB, matchTo, Bool.or_comm]
        · have hd : dollarOk [c] = false := by simp [dollarOk, hc]
          have hne : (['\n'] : List Char) ≠ [c] := by simp [Ne.symm hc]
          simp [hd, nullB, matchTo, hne]
      · simp [dollarOk, nullB, matchTo]

theorem appendDollar_noTopAlt (p : RE) (hp : noTopAlt p = true) :
    appendDollar p = RE.cat p RE.eos := by
  cases p <;> first | rfl | exact absurd hp (by simp [noTopAlt])

/-- C2, amended: `_color_override_matches` returns the color of the first
key in the dictionary's iteration order for which
`re.match(pattern + "$", name)` succeeds; the textually appended `$`
anchors only the last top-level alternative of the pattern and also matches
just before a trailing newline.  For a pattern with no top-level
alternation the override is selected exactly when the pattern matches the
entire volume name or the entire name minus a single trailing newline, and
when every pattern is of that form and matches neither way, `none` is
returned. -/
theorem color_override_matches_amended (overrides : List (RE × ColorVal))
    (name : String) :
    color_override_matches overrides name =
      Option.map Prod.snd
        (List.find? (fun pc => pyReMatch (appendDollar pc.1) name.data) overrides) ∧
    (∀ p : RE, noTopAlt p = true →
      pyReMatch (appendDollar p) name.data =
        (matchTo p name.data [] || matchTo p name.data ['\n'])) ∧
    ((∀ pc ∈ overrides, noTopAlt pc.1 = true ∧ matchTo pc.1 name.data [] = false ∧
        matchTo pc.1 name.data ['\n'] = false) →
      color_override_matches overrides name = none) := by
  have h1 : color_override_matches overrides name =
      Option.map Prod.snd
        (List.find? (fun pc => pyReMatch (appendDollar pc.1) name.data) overrides) := by
    induction overrides with
    | nil => rfl
    | cons pc rest ih =>
        obtain ⟨pattern, color⟩ := pc
        simp only [color_override_matches, List.find?_cons]
        cases h : pyReMatch (appendDollar pattern) name.data with
        | false => simpa [h] using ih
        | true => simp [h]
  refine ⟨h1, fun p hp => ?_, fun hall => ?_⟩
  · rw [appendDollar_noTopAlt p hp, pyReMatch_cat_eos]
  · rw [h1]
    have hfind : List.find? (fun pc => pyReMatch (appendDollar pc.1) name.data)
        overrides = none := by
      rw [List.find?_eq_none]
      intro pc hpc
      obtain ⟨hna, h0, hn⟩ := hall pc hpc
      rw [appendDollar_noTopAlt pc.1 hna, pyReMatch_cat_eos, h0, hn]
      simp
    rw [hfind]
    rfl

/-- Counterexample to C2 as stated: with Python's `$` semantics, the
pattern `a` selects an override for the name `"a\n"` although it matches
only the proper prefix `"a"` and not the entire name, and the pattern
`a|b` selects an override for the name `"ax"` although it matches neither
the entire name nor all of it except a trailing newline (the textual `$`
anchors only the `b` alternative). -/
theorem color_override_matches_counterexample :
    color_override_matches [(RE.chr 'a', ColorVal.falseVal)] "a\n" =
        some ColorVal.falseVal ∧
      matchTo (RE.chr 'a') "a\n".data [] = false ∧
      matchTo (RE.chr 'a') "a".data [] = true ∧
      color_override_matches [(RE.alt (RE.chr 'a') (RE.chr 'b'), ColorVal.falseVal)]
          "ax" = some ColorVal.falseVal ∧
      matchTo (RE.alt (RE.chr 'a') (RE.chr 'b')) "ax".data [] = false ∧
      matchTo (RE.alt (RE.chr 'a') (RE.chr 'b')) "ax".data ['\n'] = false := by
  decide

/-- Witness for the amended C2 at concrete inputs: the pattern `a` has no
top-level alternation and matches neither all of `"ab"` nor all of it
except a trailing newline, so no override is selected. -/
theorem color_override_matches_amended_witness :
    (∀ pc ∈ [(RE.chr 'a', ColorVal.falseVal)], noTopAlt pc.1 = true ∧
        matchTo pc.1 "ab".data [] = false ∧ matchTo pc.1 "ab".data ['\n'] = false) ∧
      color_override_matches [(RE.chr 'a', ColorVal.falseVal)] "ab" = none ∧
      (noTopAlt (RE.chr 'a') = true) ∧
      pyReMatch (appendDollar (RE.chr 'a')) "ab".data =
        (matchTo (RE.chr 'a') "ab".data [] || matchTo (RE.chr 'a') "ab".data ['\n']) := by
  refine ⟨by decide, ?_, by decide, ?_⟩
  · exact (color_override_matches_amended [(RE.chr 'a', ColorVal.falseVal)] "ab").2.2
      (by decide)
  · exact (color_override_matches_amended [(RE.chr 'a', ColorVal.falseVal)] "ab").2.1
      (RE.chr 'a') (by decide)

/-- C4 (code bug): a `--add-points-columns` value without any colon raises
`IndexError` from the subscript `table_parts[1]`, before the validation
check that would raise `ValueError("invalid parameter for points")` can
run. -/
theorem parse_points_columns_no_colon_index_error :
    parse_points_columns "stp/vertices" = Except.error PyError.indexError ∧
      parse_points_columns "stp/vertices" ≠
        Except.error (PyError.valueError "invalid parameter for points") := by
  constructor <;> decide

/-- C9: pressing `v` while points are loaded reads the local variable `ax`
that only the `a` branch assigns, so the handler raises
`UnboundLocalError` instead of toggling the point visibility. -/
theorem keypress_v_unbound_local (scenes : List ScenePreset) (st : VState)
    (hp : st.points.isSome = true) :
    keypress scenes "v" st = Except.error PyError.unboundLocal := by
  simp [keypress, hp]

/-- Witness for C9 at a concrete state with points loaded. -/
theorem keypress_v_unbound_local_witness :
    (Option.isSome (some true) = true) ∧
      keypress [] "v"
          ⟨true, some true, ⟨(0, 0, 0), (0, 1, 0), (5, 5, 5), false, 1⟩⟩ =
        Except.error PyError.unboundLocal :=
  ⟨rfl, keypress_v_unbound_local []
    ⟨true, some true, ⟨(0, 0, 0), (0, 1, 0), (5, 5, 5), false, 1⟩⟩ rfl⟩

/-- C3 (code bug): with two camera presets in the scene definition,
pressing `F2` applies nothing at all — because `sc_index` is incremented
only inside the matched branch, the comparison key is `"F1"` on every
iteration — even though applying the second preset would change the
camera. -/
theorem keypress_f2_no_preset_applied :
    keypress
        [⟨some (0, 0, 1), some (0, 0, 100), none, ParallelArg.pbool false⟩,
         ⟨some (1, 0, 0), some (200, 0, 0), none, ParallelArg.pbool false⟩]
        "F2" ⟨true, none, ⟨(0, 0, 0), (0, 1, 0), (5, 5, 5), false, 1⟩⟩ =
      Except.ok ⟨true, none, ⟨(0, 0, 0), (0, 1, 0), (5, 5, 5), false, 1⟩⟩ ∧
    set_camera ⟨(0, 0, 0), (0, 1, 0), (5, 5, 5), false, 1⟩ none (some (1, 0, 0))
        (some (200, 0, 0)) none (some (ParallelArg.pbool false)) ≠
      ⟨(0, 0, 0), (0, 1, 0), (5, 5, 5), false, 1⟩ := by
  constructor <;> decide

/-- `applyColor` touches only the vis-options entry of the processed
volume's own name. -/
theorem applyColor_ne (overrides : List (RE × ColorVal)) (vs : VisState) (lv : LVol)
    (n : String) (hn : n ≠ lv.name) : applyColor overrides vs lv n = vs n := by
  rcases hco : color_override_matches overrides lv.name with _ | c
  · rcases hat : lv.colorAttr with _ | a
    · simp [applyColor, hco, hat]
    · cases a <;> simp [applyColor, hco, hat, Function.update_noteq hn]
  · cases c <;> simp [applyColor, hco, Function.update_noteq hn]

theorem foldl_applyColor_not_mem (overrides : List (RE × ColorVal)) :
    ∀ (L : List LVol) (vs : VisState) (n : String), n ∉ L.map LVol.name →
      L.foldl (applyColor overrides) vs n = vs n
  | [], _, _, _ => rfl
  | lv :: L, vs, n, h => by
      have hn : n ≠ lv.name := by
        intro he
        exact h (by simp [he])
      have hL : n ∉ L.map LVol.name := fun hm => h (List.mem_cons_of_mem _ hm)
      rw [List.foldl_cons, foldl_applyColor_not_mem overrides L _ n hL,
        applyColor_ne overrides vs lv n hn]

mutual

theorem color_recursive_eq_foldl (overrides : List (RE × ColorVal)) :
    ∀ (lv : LVol) (vs : VisState),
      color_recursive overrides lv vs =
        (reachable lv).foldl (applyColor overrides) vs
  | .mk n a ds, vs => by
      rw [color_recursive, reachable, List.foldl_cons]
      exact colorDaughters_eq_foldl overrides ds _

theorem colorDaughters_eq_foldl (overrides : List (RE × ColorVal)) :
    ∀ (ds : List (String × LVol)) (vs : VisState),
      colorDaughters overrides ds vs =
        (reachableDaughters ds).foldl (applyColor overrides) vs
  | [], vs => rfl
  | (ptype, dlv) :: rest, vs => by
      rw [colorDaughters, reachableDaughters, List.foldl_append]
      by_cases h : (ptype == "placement") = true
      · rw [if_pos h, if_pos h, color_recursive_eq_foldl overrides dlv vs,
          colorDaughters_eq_foldl overrides rest]
      · rw [if_neg h, if_neg h, colorDaughters_eq_foldl overrides rest]
        rfl

end

/-- C5: `_color_recursive` visits the root volume and exactly the volumes
reachable through chains of `"placement"`-type daughters, applying the
color-override logic once per visited volume in visit order; the
vis-options of any name not among the visited volumes are untouched. -/
theorem color_recursive_visits (overrides : List (RE × ColorVal)) (lv : LVol)
    (vs : VisState) :
    color_recursive overrides lv vs = (reachable lv).foldl (applyColor overrides) vs ∧
      ∀ n : String, n ∉ (reachable lv).map LVol.name →
        color_recursive overrides lv vs n = vs n := by
  refine ⟨color_recursive_eq_foldl overrides lv vs, fun n hn => ?_⟩
  rw [color_recursive_eq_foldl overrides lv vs]
  exact foldl_applyColor_not_mem overrides (reachable lv) vs n hn

/-- Witness for C5 at a concrete tree: the volume `c`, reachable only
through a daughter of type `replica`, is not visited and keeps its
vis-options. -/
theorem color_recursive_visits_witness :
    (("c" : String) ∉ (reachable lvW).map LVol.name) ∧
      color_recursive [] lvW vsW "c" = vsW "c" := by
  have hnm : ("c" : String) ∉ (reachable lvW).map LVol.name := by
    simp [lvW, reachable, reachableDaughters, LVol.name]
  exact ⟨hnm, (color_recursive_visits [] lvW vsW).2 "c" hnm⟩

/-- C6: when `_color_recursive` processes a volume that has a
`pygeom_color_rgba` attribute or a matching color override, the override
takes precedence over the attribute; an effective value of `False` sets
every instance vis-option of the volume to alpha 0 and invisible, and an
RGBA value sets the colour to its first three components, the alpha to the
fourth, and makes an instance visible exactly when that alpha is positive. -/
theorem applyColor_precedence_effect (overrides : List (RE × ColorVal))
    (vs : VisState) (n : String) (attr attr' : Option ColorVal)
    (ds ds' : List (String × LVol)) (r g b a : ℚ) :
    ((color_override_matches overrides n).isSome = true →
      applyColor overrides vs (.mk n attr ds) =
        applyColor overrides vs (.mk n attr' ds')) ∧
    (effColor overrides n attr = some ColorVal.falseVal →
      applyColor overrides vs (.mk n attr ds) n =
        (vs n).map fun vis => { vis with alpha := 0, visible := false }) ∧
    (effColor overrides n attr = some (ColorVal.rgba r g b a) →
      applyColor overrides vs (.mk n attr ds) n =
        (vs n).map fun vis =>
          { vis with colour := (r, g, b), alpha := a, visible := decide (0 < a) }) := by
  refine ⟨fun hso => ?_, fun heff => ?_, fun heff => ?_⟩
  · rcases hco : color_override_matches overrides n with _ | c
    · rw [hco] at hso
      exact absurd hso (by simp)
    · cases c <;>
        simp [applyColor, LVol.name, LVol.colorAttr, hco]
  · rcases hco : color_override_matches overrides n with _ | c
    · simp only [effColor, hco] at heff
      simp [applyColor, LVol.name, LVol.colorAttr, hco, heff, Function.update_same]
    · simp only [effColor, hco, Option.some.injEq] at heff
      subst heff
      simp [applyColor, LVol.name, LVol.colorAttr, hco, Function.update_same]
  · rcases hco : color_override_matches overrides n with _ | c
    · simp only [effColor, hco] at heff
      simp [applyColor, LVol.name, LVol.colorAttr, hco, heff, Function.update_same]
    · simp only [effColor, hco, Option.some.injEq] at heff
      subst heff
      simp [applyColor, LVol.name, LVol.colorAttr, hco, Function.update_same]

/-- Witness for C6 at concrete inputs: the override `x ↦ rgba(1,0,0,1/2)`
matches the volume name `x` and takes precedence over the attribute
`False`; the resulting entries get colour `(1,0,0)`, alpha `1/2`, and are
visible. -/
theorem applyColor_precedence_effect_witness :
    ((color_override_matches ovW "x").isSome = true) ∧
      applyColor ovW vsW (.mk "x" (some ColorVal.falseVal) []) =
        applyColor ovW vsW (.mk "x" none []) ∧
      (effColor ovW "x" (some ColorVal.falseVal) = some (ColorVal.rgba 1 0 0 (1 / 2))) ∧
      applyColor ovW vsW (.mk "x" (some ColorVal.falseVal) []) "x" =
        (vsW "x").map fun vis =>
          { vis with colour := (1, 0, 0), alpha := 1 / 2, visible := decide ((0 : ℚ) < 1 / 2) } := by
  refine ⟨by decide, ?_, by rfl, ?_⟩
  · exact (applyColor_precedence_effect ovW vsW "x" (some ColorVal.falseVal) none [] []
      1 0 0 (1 / 2)).1 (by decide)
  · exact (applyColor_precedence_effect ovW vsW "x" (some ColorVal.falseVal) none [] []
      1 0 0 (1 / 2)).2.2 (by rfl)

mutual

theorem collectPV_eq_filter : ∀ t : PTree,
    collectPV t = (flattenPV t).filterMap fun p => p.2.map fun i => (p.1, i)
  | .mk n d cs => by
      rw [collectPV.eq_def, flattenPV, List.filterMap_cons]
      cases d with
      | none => simpa using collectPVs_eq_filter cs
      | some i => simpa using collectPVs_eq_filter cs

theorem collectPVs_eq_filter : ∀ ts : List PTree,
    collectPVs ts = (flattenPVs ts).filterMap fun p => p.2.map fun i => (p.1, i)
  | [] => rfl
  | t :: ts => by
      rw [collectPVs, flattenPVs, List.filterMap_append,
        collectPV_eq_filter t, collectPVs_eq_filter ts]

end

theorem find_filterMap_not_mem (name : String) :
    ∀ F : List (String × Option RemageDetectorInfo), name ∉ F.map Prod.fst →
      ((F.filterMap fun p => p.2.map fun i => (p.1, i)).find? fun q => q.1 == name) =
        none
  | [], _ => rfl
  | (n, d) :: F, h => by
      have h1 : (n == name) = false := by
        refine beq_eq_false_iff_ne.mpr fun he => ?_
        subst he
        exact h (by simp)
      have hF : name ∉ F.map Prod.fst := fun hm => h (by simp [List.mem_of_mem_tail, hm])
      have ih := find_filterMap_not_mem name F hF
      cases d <;> simp [List.filterMap_cons, List.find?_cons, h1, ih]

theorem find_filterMap_nodup (name : String) :
    ∀ F : List (String × Option RemageDetectorInfo), (F.map Prod.fst).Nodup →
      ((F.filterMap fun p => p.2.map fun i => (p.1, i)).find? fun q => q.1 == name) =
        ((F.find? fun p => p.1 == name).bind fun p => p.2.map fun i => (p.1, i))
  | [], _ => rfl
  | (n, d) :: F, h => by
      have hF : (F.map Prod.fst).Nodup := by
        simp only [List.map_cons, List.nodup_cons] at h
        exact h.2
      have ih := find_filterMap_nodup name F hF
      by_cases hn : n = name
      · subst hn
        have hnot : n ∉ F.map Prod.fst := by
          simp only [List.map_cons, List.nodup_cons] at h
          exact h.1
        cases d with
        | none =>
            simp [List.filterMap_cons, List.find?_cons,
              find_filterMap_not_mem n F hnot]
        | some i => simp [List.filterMap_cons, List.find?_cons]
      · have hn' : (n == name) = false := beq_eq_false_iff_ne.mpr hn
        cases d <;> simp [List.filterMap_cons, List.find?_cons, hn', ih]

theorem sensAux_roundtrip (r : Registry) :
    (gdml_read (write_pygeom r)).sensAux = some (collectPVs r.pvs) := by
  have comp_id : ((fun q : String × String × Nat × Option (List (String × String)) =>
      (q.1, RemageDetectorInfo.mk q.2.1 q.2.2.1 q.2.2.2)) ∘
      fun p : String × RemageDetectorInfo =>
        (p.1, p.2.detector_type, p.2.uid, p.2.metadata)) = id := by
    funext p
    rfl
  simp [gdml_read, write_pygeom, List.map_map, comp_id]

/-- C1: after a `write_pygeom` write/read cycle, `get_sensvol_metadata`
recovers, for every volume name, exactly the metadata mapping attached to
the volume of that name (`none` for volumes without metadata), and
`get_all_sensvols` returns exactly the annotated volume names, each paired
with its detector info (including the uid).  Volume names are assumed
unique, as they are in a GDML registry. -/
theorem write_read_roundtrip (r : Registry)
    (h : ((flattenPVs r.pvs).map Prod.fst).Nodup) :
    (∀ name : String,
      get_sensvol_metadata (gdml_read (write_pygeom r)) name =
        Except.ok ((findDet r.pvs name).bind RemageDetectorInfo.metadata)) ∧
    get_all_sensvols (gdml_read (write_pygeom r)) =
      Except.ok ((flattenPVs r.pvs).filterMap fun p => p.2.map fun i => (p.1, i)) := by
  constructor
  · intro name
    rw [get_sensvol_metadata.eq_def, sensAux_roundtrip r]
    dsimp only
    rw [collectPVs_eq_filter r.pvs, find_filterMap_nodup name (flattenPVs r.pvs) h,
      findDet]
    cases hf : (flattenPVs r.pvs).find? fun p => p.1 == name with
    | none => rfl
    | some p =>
        rcases p with ⟨n, _ | i⟩ <;> rfl
  · rw [get_all_sensvols.eq_def, sensAux_roundtrip r, collectPVs_eq_filter r.pvs]

/-- C7: the macro file written by `generate_detector_macro` holds exactly
one `/RMG/Geometry/RegisterDetector <CapitalizedType> <pv name> <uid>`
line per physical volume with attached active-detector info, in traversal
order, and is empty when no physical volume carries such info. -/
theorem detector_mac_lines (r : Registry) :
    detectorMacLines r =
      ((flattenPVs r.pvs).filterMap fun p => p.2.map fun i => (p.1, i)).map
        (fun q => registerLine q.1 q.2) ∧
    ((∀ p ∈ flattenPVs r.pvs, p.2 = none) → detectorMacText r = "") := by
  constructor
  · rw [detectorMacLines, collectPVs_eq_filter r.pvs]
  · intro hnone
    have hcol : collectPVs r.pvs = [] := by
      rw [collectPVs_eq_filter r.pvs, List.filterMap_eq_nil_iff]
      intro p hp
      rw [hnone p hp]
      rfl
    rw [detectorMacText, detectorMacLines, hcol]
    rfl

/-- C8: on a registry re-read from a GDML file produced by the plain
pyg4ometry writer (no pygeomtools auxiliary data), both
`get_sensvol_metadata` and `get_all_sensvols` raise `RuntimeError`. -/
theorem plain_write_read_raises (r : Registry) (name : String) :
    get_sensvol_metadata (gdml_read (plain_gdml_write r)) name =
        Except.error DetError.runtimeError ∧
      get_all_sensvols (gdml_read (plain_gdml_write r)) =
        Except.error DetError.runtimeError :=
  ⟨rfl, rfl⟩

/-- Witness for C1 at the concrete registry `rW1`. -/
theorem write_read_roundtrip_witness :
    ((flattenPVs rW1.pvs).map Prod.fst).Nodup ∧
      get_sensvol_metadata (gdml_read (write_pygeom rW1)) "det1" =
        Except.ok ((findDet rW1.pvs "det1").bind RemageDetectorInfo.metadata) ∧
      get_all_sensvols (gdml_read (write_pygeom rW1)) =
        Except.ok ((flattenPVs rW1.pvs).filterMap fun p => p.2.map fun i => (p.1, i)) := by
  have h : ((flattenPVs rW1.pvs).map Prod.fst).Nodup := by
    simp [rW1, flattenPVs, flattenPV]
  exact ⟨h, (write_read_roundtrip rW1 h).1 "det1", (write_read_roundtrip rW1 h).2⟩

/-- Witness for C7 at the concrete registry `rW2`: no volume is annotated
and the macro file is empty. -/
theorem detector_mac_lines_witness :
    (∀ p ∈ flattenPVs rW2.pvs, p.2 = none) ∧ detectorMacText rW2 = "" := by
  have h : ∀ p ∈ flattenPVs rW2.pvs, p.2 = none := by
    simp [rW2, flattenPVs, flattenPV]
  exact ⟨h, (detector_mac_lines rW2).2 h⟩

theorem decoupleRefs_refs (dflt : Nat) : ∀ (rs : List Nat) (h : Nat → VisOptions)
    (nx : Nat), (decoupleRefs dflt h nx rs).2.2 = (freshenRefs dflt nx rs).1 ∧
      (decoupleRefs dflt h nx rs).2.1 = (freshenRefs dflt nx rs).2
  | [], _, _ => ⟨rfl, rfl⟩
  | r :: rs, h, nx => by
      by_cases hr : r = dflt
      · have ih := decoupleRefs_refs dflt rs (Function.update h nx (h dflt)) (nx + 1)
        simp [decoupleRefs, freshenRefs, hr, ih.1, ih.2]
      · have ih := decoupleRefs_refs dflt rs h nx
        simp [decoupleRefs, freshenRefs, hr, ih.1, ih.2]

theorem freshenRefs_le (dflt : Nat) : ∀ (rs : List Nat) (nx : Nat),
    nx ≤ (freshenRefs dflt nx rs).2
  | [], _ => le_refl _
  | r :: rs, nx => by
      by_cases hr : r = dflt
      · have ih := freshenRefs_le dflt rs (nx + 1)
        rw [freshenRefs, if_pos hr]
        omega
      · rw [freshenRefs, if_neg hr]
        exact freshenRefs_le dflt rs nx

theorem freshenRefs_length (dflt : Nat) : ∀ (rs : List Nat) (nx : Nat),
    (freshenRefs dflt nx rs).1.length = rs.length
  | [], _ => rfl
  | r :: rs, nx => by
      by_cases hr : r = dflt <;>
        simp [freshenRefs, hr, freshenRefs_length dflt rs]

theorem freshenRefs_mem (dflt : Nat) : ∀ (rs : List Nat) (nx : Nat),
    ∀ x ∈ (freshenRefs dflt nx rs).1,
      (x ∈ rs ∧ x ≠ dflt) ∨ (nx ≤ x ∧ x < (freshenRefs dflt nx rs).2)
  | [], _, x, hx => absurd hx (by simp [freshenRefs])
  | r :: rs, nx, x, hx => by
      by_cases hr : r = dflt
      · rw [freshenRefs, if_pos hr] at hx ⊢
        rcases List.mem_cons.mp hx with hx | hx
        · subst hx
          exact Or.inr ⟨le_refl _, lt_of_lt_of_le (Nat.lt_succ_self _)
            (freshenRefs_le dflt rs _)⟩
        · rcases freshenRefs_mem dflt rs (nx + 1) x hx with ⟨h1, h2⟩ | ⟨h1, h2⟩
          · exact Or.inl ⟨List.mem_cons_of_mem _ h1, h2⟩
          · exact Or.inr ⟨le_of_lt (Nat.lt_of_succ_le h1), h2⟩
      · rw [freshenRefs, if_neg hr] at hx ⊢
        rcases List.mem_cons.mp hx with hx | hx
        · subst hx
          exact Or.inl ⟨List.mem_cons_self _ _, hr⟩
        · rcases freshenRefs_mem dflt rs nx x hx with ⟨h1, h2⟩ | h1
          · exact Or.inl ⟨List.mem_cons_of_mem _ h1, h2⟩
          · exact Or.inr h1

theorem freshenRefs_nodup (dflt : Nat) : ∀ (rs : List Nat) (nx : Nat),
    (∀ r ∈ rs, r < nx) → (∀ r, r ≠ dflt → rs.count r ≤ 1) →
      (freshenRefs dflt nx rs).1.Nodup
  | [], _, _, _ => List.nodup_nil
  | r :: rs, nx, hb, hc => by
      have hbt : ∀ q ∈ rs, q < nx := fun q hq => hb q (List.mem_cons_of_mem _ hq)
      by_cases hr : r = dflt
      · rw [freshenRefs, if_pos hr]
        refine List.nodup_cons.mpr ⟨fun hmem => ?_, ?_⟩
        · rcases freshenRefs_mem dflt rs (nx + 1) nx hmem with ⟨h1, _⟩ | ⟨h1, _⟩
          · exact absurd (hbt nx h1) (lt_irrefl nx)
          · omega
        · refine freshenRefs_nodup dflt rs (nx + 1) (fun q hq => ?_) (fun q hq => ?_)
          · exact lt_trans (hbt q hq) (Nat.lt_succ_self _)
          · exact le_trans ((List.sublist_cons_self _ _).count_le q) (hc q hq)
      · rw [freshenRefs, if_neg hr]
        refine List.nodup_cons.mpr ⟨fun hmem => ?_, ?_⟩
        · rcases freshenRefs_mem dflt rs nx r hmem with ⟨h1, _⟩ | ⟨h1, _⟩
          · have : 2 ≤ (r :: rs).count r := by
              rw [List.count_cons_self]
              have : 1 ≤ rs.count r := List.one_le_count_iff.mpr h1
              omega
            have := hc r hr
            omega
          · exact absurd (hb r (List.mem_cons_self _ _)) (by omega)
        · refine freshenRefs_nodup dflt rs nx hbt (fun q hq => ?_)
          exact le_trans ((List.sublist_cons_self _ _).count_le q) (hc q hq)

theorem freshenRefs_getD_keep (dflt : Nat) : ∀ (rs : List Nat) (nx j : Nat),
    rs.getD j 0 ≠ dflt → (freshenRefs dflt nx rs).1.getD j 0 = rs.getD j 0
  | [], _, _, _ => rfl
  | r :: rs, nx, 0, hne => by
      have hr : r ≠ dflt := by simpa using hne
      rw [freshenRefs, if_neg hr]
      rfl
  | r :: rs, nx, j + 1, hne => by
      have hne' : rs.getD j 0 ≠ dflt := by simpa using hne
      by_cases hr : r = dflt
      · rw [freshenRefs, if_pos hr]
        simpa using freshenRefs_getD_keep dflt rs (nx + 1) j hne'
      · rw [freshenRefs, if_neg hr]
        simpa using freshenRefs_getD_keep dflt rs nx j hne'

theorem freshenRefs_getD_ne_dflt (dflt : Nat) (rs : List Nat) (nx j : Nat)
    (hj : j < rs.length) (hdn : dflt < nx) :
    (freshenRefs dflt nx rs).1.getD j 0 ≠ dflt := by
  have hlen : j < (freshenRefs dflt nx rs).1.length := by
    rw [freshenRefs_length]
    exact hj
  have hmem : (freshenRefs dflt nx rs).1.getD j 0 ∈ (freshenRefs dflt nx rs).1 := by
    rw [List.getD_eq_getElem _ _ hlen]
    exact List.getElem_mem hlen
  rcases freshenRefs_mem dflt rs nx _ hmem with ⟨_, hne⟩ | ⟨hge, _⟩
  · exact hne
  · omega

theorem decoupleRefs_heap_lt (dflt : Nat) : ∀ (rs : List Nat) (h : Nat → VisOptions)
    (nx m : Nat), m < nx → (decoupleRefs dflt h nx rs).1 m = h m
  | [], _, _, _, _ => rfl
  | r :: rs, h, nx, m, hm => by
      by_cases hr : r = dflt
      · rw [decoupleRefs, if_pos hr]
        dsimp only
        rw [decoupleRefs_heap_lt dflt rs _ (nx + 1) m (lt_trans hm (Nat.lt_succ_self _))]
        exact Function.update_noteq (by omega) _ _
      · rw [decoupleRefs, if_neg hr]
        dsimp only
        exact decoupleRefs_heap_lt dflt rs h nx m hm

theorem decoupleRefs_values (dflt : Nat) : ∀ (rs : List Nat) (h : Nat → VisOptions)
    (nx : Nat), dflt < nx → (∀ r ∈ rs, r < nx) → ∀ j, j < rs.length →
      (decoupleRefs dflt h nx rs).1 ((freshenRefs dflt nx rs).1.getD j 0) =
        h (rs.getD j 0)
  | [], _, _, _, _, j, hj => absurd hj (by simp)
  | r :: rs, h, nx, hdn, hb, 0, _ => by
      by_cases hr : r = dflt
      · rw [freshenRefs, if_pos hr, decoupleRefs, if_pos hr]
        dsimp only [List.getD_cons_zero]
        rw [decoupleRefs_heap_lt dflt rs _ (nx + 1) nx (Nat.lt_succ_self _)]
        rw [Function.update_same, hr]
      · rw [freshenRefs, if_neg hr, decoupleRefs, if_neg hr]
        dsimp only [List.getD_cons_zero]
        exact decoupleRefs_heap_lt dflt rs h nx r (hb r (List.mem_cons_self _ _))
  | r :: rs, h, nx, hdn, hb, j + 1, hj => by
      have hbt : ∀ q ∈ rs, q < nx := fun q hq => hb q (List.mem_cons_of_mem _ hq)
      have hjt : j < rs.length := by simpa using hj
      by_cases hr : r = dflt
      · rw [freshenRefs, if_pos hr, decoupleRefs, if_pos hr]
        dsimp only [List.getD_cons_succ]
        rw [decoupleRefs_values dflt rs _ (nx + 1) (lt_trans hdn (Nat.lt_succ_self _))
          (fun q hq => lt_trans (hbt q hq) (Nat.lt_succ_self _)) j hjt]
        refine Function.update_noteq ?_ _ _
        have : rs.getD j 0 ∈ rs := by
          rw [List.getD_eq_getElem _ _ hjt]
          exact List.getElem_mem hjt
        have := hbt _ this
        omega
      · rw [freshenRefs, if_neg hr, decoupleRefs, if_neg hr]
        dsimp only [List.getD_cons_succ]
        exact decoupleRefs_values dflt rs h nx hdn hbt j hjt

theorem freshenRefs_append (dflt : Nat) : ∀ (a b : List Nat) (nx : Nat),
    (freshenRefs dflt nx (a ++ b)).1 =
      (freshenRefs dflt nx a).1 ++ (freshenRefs dflt (freshenRefs dflt nx a).2 b).1 ∧
    (freshenRefs dflt nx (a ++ b)).2 = (freshenRefs dflt (freshenRefs dflt nx a).2 b).2
  | [], b, nx => ⟨rfl, rfl⟩
  | r :: a, b, nx => by
      by_cases hr : r = dflt
      · have ih := freshenRefs_append dflt a b (nx + 1)
        simp only [List.cons_append]
        rw [freshenRefs, if_pos hr, freshenRefs, if_pos hr]
        exact ⟨by rw [ih.1]; rfl, by rw [ih.2]⟩
      · have ih := freshenRefs_append dflt a b nx
        simp only [List.cons_append]
        rw [freshenRefs, if_neg hr, freshenRefs, if_neg hr]
        exact ⟨by rw [ih.1]; rfl, by rw [ih.2]⟩

theorem allRefs_cons (vol : String) (rs : List Nat) (rest : List (String × List Nat)) :
    allRefs ((vol, rs) :: rest) = rs ++ allRefs rest := by
  simp [allRefs]

theorem decoupleVols_refs (dflt : Nat) : ∀ (l : List (String × List Nat))
    (h : Nat → VisOptions) (nx : Nat),
    (decoupleVols dflt h nx l).2.2.map Prod.fst = l.map Prod.fst ∧
    (decoupleVols dflt h nx l).2.1 = (freshenRefs dflt nx (allRefs l)).2 ∧
    allRefs (decoupleVols dflt h nx l).2.2 = (freshenRefs dflt nx (allRefs l)).1
  | [], _, _ => ⟨rfl, rfl, rfl⟩
  | (vol, rs) :: rest, h, nx => by
      have hdr := decoupleRefs_refs dflt rs h nx
      have ih := decoupleVols_refs dflt rest
        (decoupleRefs dflt h nx rs).1 (decoupleRefs dflt h nx rs).2.1
      have happ := freshenRefs_append dflt rs (allRefs rest) nx
      rw [decoupleVols]
      dsimp only
      refine ⟨?_, ?_, ?_⟩
      · simp [ih.1]
      · rw [ih.2.1, hdr.2, allRefs_cons, happ.2]
      · rw [allRefs_cons, allRefs_cons, happ.1, hdr.1, ih.2.2, hdr.2]

theorem decoupleVols_heap_lt (dflt : Nat) : ∀ (l : List (String × List Nat))
    (h : Nat → VisOptions) (nx m : Nat), m < nx →
      (decoupleVols dflt h nx l).1 m = h m
  | [], _, _, _, _ => rfl
  | (vol, rs) :: rest, h, nx, m, hm => by
      have hdr := decoupleRefs_refs dflt rs h nx
      have hle : nx ≤ (decoupleRefs dflt h nx rs).2.1 := by
        rw [hdr.2]
        exact freshenRefs_le dflt rs nx
      rw [decoupleVols]
      dsimp only
      rw [decoupleVols_heap_lt dflt rest _ _ m (lt_of_lt_of_le hm hle)]
      exact decoupleRefs_heap_lt dflt rs h nx m hm

theorem refsAt_subset_allRefs : ∀ (l : List (String × List Nat)) (i : Nat),
    ∀ x ∈ refsAt l i, x ∈ allRefs l
  | [], i, x, hx => absurd hx (by simp [refsAt])
  | (vol, rs) :: rest, 0, x, hx => by
      rw [allRefs_cons]
      exact List.mem_append_left _ hx
  | (vol, rs) :: rest, i + 1, x, hx => by
      rw [allRefs_cons]
      exact List.mem_append_right _ (refsAt_subset_allRefs rest i x hx)

theorem decoupleVols_lengths (dflt : Nat) : ∀ (l : List (String × List Nat))
    (h : Nat → VisOptions) (nx i : Nat),
    (refsAt (decoupleVols dflt h nx l).2.2 i).length = (refsAt l i).length
  | [], _, _, _ => rfl
  | (vol, rs) :: rest, h, nx, 0 => by
      rw [decoupleVols]
      dsimp only
      show ((decoupleRefs dflt h nx rs).2.2).length = rs.length
      rw [(decoupleRefs_refs dflt rs h nx).1, freshenRefs_length]
  | (vol, rs) :: rest, h, nx, i + 1 => by
      rw [decoupleVols]
      dsimp only
      exact decoupleVols_lengths dflt rest _ _ i

theorem decoupleVols_values (dflt : Nat) : ∀ (l : List (String × List Nat))
    (h : Nat → VisOptions) (nx : Nat), dflt < nx → (∀ r ∈ allRefs l, r < nx) →
    ∀ i j, j < (refsAt l i).length →
      (decoupleVols dflt h nx l).1 (refAt (decoupleVols dflt h nx l).2.2 i j) =
        h (refAt l i j) ∧
      (refAt l i j ≠ dflt → refAt (decoupleVols dflt h nx l).2.2 i j = refAt l i j) ∧
      refAt (decoupleVols dflt h nx l).2.2 i j ≠ dflt
  | [], _, _, _, _, i, j, hj => absurd hj (by simp [refsAt])
  | (vol, rs) :: rest, h, nx, hdn, hb, 0, j, hj => by
      have hdr := decoupleRefs_refs dflt rs h nx
      have hble : ∀ r ∈ rs, r < nx := fun r hr => hb r (by
        rw [allRefs_cons]
        exact List.mem_append_left _ hr)
      have hj' : j < rs.length := hj
      have hlenf : j < (freshenRefs dflt nx rs).1.length := by
        rw [freshenRefs_length]
        exact hj'
      have hmemf : (freshenRefs dflt nx rs).1.getD j 0 ∈ (freshenRefs dflt nx rs).1 := by
        rw [List.getD_eq_getElem _ _ hlenf]
        exact List.getElem_mem hlenf
      have hylt : (freshenRefs dflt nx rs).1.getD j 0 < (freshenRefs dflt nx rs).2 := by
        rcases freshenRefs_mem dflt rs nx _ hmemf with ⟨h1, _⟩ | ⟨_, h2⟩
        · exact lt_of_lt_of_le (hble _ h1) (freshenRefs_le dflt rs nx)
        · exact h2
      rw [decoupleVols]
      dsimp only
      have hrefeq : refAt ((vol, (decoupleRefs dflt h nx rs).2.2) ::
          (decoupleVols dflt (decoupleRefs dflt h nx rs).1
            (decoupleRefs dflt h nx rs).2.1 rest).2.2) 0 j =
          (freshenRefs dflt nx rs).1.getD j 0 := by
        show ((decoupleRefs dflt h nx rs).2.2).getD j 0 = _
        rw [hdr.1]
      rw [hrefeq]
      refine ⟨?_, ?_, ?_⟩
      · rw [decoupleVols_heap_lt dflt rest _ _ _ (by rw [hdr.2]; exact hylt)]
        exact decoupleRefs_values dflt rs h nx hdn hble j hj'
      · intro hne
        exact freshenRefs_getD_keep dflt rs nx j hne
      · exact freshenRefs_getD_ne_dflt dflt rs nx j hj' hdn
  | (vol, rs) :: rest, h, nx, hdn, hb, i + 1, j, hj => by
      have hdr := decoupleRefs_refs dflt rs h nx
      have hle : nx ≤ (decoupleRefs dflt h nx rs).2.1 := by
        rw [hdr.2]
        exact freshenRefs_le dflt rs nx
      have hb' : ∀ r ∈ allRefs rest, r < (decoupleRefs dflt h nx rs).2.1 :=
        fun r hr => lt_of_lt_of_le (hb r (by
          rw [allRefs_cons]
          exact List.mem_append_right _ hr)) hle
      have hj' : j < (refsAt rest i).length := hj
      have ih := decoupleVols_values dflt rest (decoupleRefs dflt h nx rs).1
        (decoupleRefs dflt h nx rs).2.1 (lt_of_lt_of_le hdn hle) hb' i j hj'
      have hz : refAt rest i j ∈ allRefs rest := by
        refine refsAt_subset_allRefs rest i _ ?_
        rw [refAt, List.getD_eq_getElem _ _ hj']
        exact List.getElem_mem hj'
      have hzlt : refAt rest i j < nx := hb _ (by
        rw [allRefs_cons]
        exact List.mem_append_right _ hz)
      rw [decoupleVols]
      dsimp only
      refine ⟨?_, ih.2.1, ih.2.2⟩
      rw [show refAt ((vol, (decoupleRefs dflt h nx rs).2.2) ::
          (decoupleVols dflt (decoupleRefs dflt h nx rs).1
            (decoupleRefs dflt h nx rs).2.1 rest).2.2) (i + 1) j =
          refAt (decoupleVols dflt (decoupleRefs dflt h nx rs).1
            (decoupleRefs dflt h nx rs).2.1 rest).2.2 i j from rfl]
      rw [ih.1]
      exact decoupleRefs_heap_lt dflt rs h nx _ hzlt

/-- C10: the level-0 de-aliasing step of `_color_recursive` replaces every
`instanceVisOptions` entry identical to the viewer's shared default
`VisOptions` object by an independent copy: volume names, list lengths and
the stored values are preserved, entries that were not the default keep
their object, and no entry references the default object afterwards.
Consequently — volumes not sharing any non-default object, as pyg4ometry
builds them — a vis-options write through one volume's entry never changes
what any other volume's entries or the default object hold. -/
theorem decouple_no_shared_default (v : HeapViewer)
    (hd : v.defaultRef < v.next)
    (hb : ∀ r ∈ allRefs v.ivo, r < v.next) :
    ((decouple v).ivo.map Prod.fst = v.ivo.map Prod.fst) ∧
    (∀ m, m < v.next → (decouple v).heap m = v.heap m) ∧
    (∀ i, (refsAt (decouple v).ivo i).length = (refsAt v.ivo i).length) ∧
    (∀ i j, j < (refsAt v.ivo i).length →
      (decouple v).heap (refAt (decouple v).ivo i j) = v.heap (refAt v.ivo i j) ∧
      (refAt v.ivo i j ≠ v.defaultRef →
        refAt (decouple v).ivo i j = refAt v.ivo i j) ∧
      refAt (decouple v).ivo i j ≠ v.defaultRef) ∧
    ((∀ r, r ≠ v.defaultRef → (allRefs v.ivo).count r ≤ 1) →
      (allRefs (decouple v).ivo).Nodup ∧
      ∀ i i', i ≠ i' →
        ∀ r ∈ refsAt (decouple v).ivo i, ∀ r' ∈ refsAt (decouple v).ivo i',
          ∀ x : VisOptions,
            Function.update (decouple v).heap r x r' = (decouple v).heap r' ∧
            Function.update (decouple v).heap r x v.defaultRef =
              (decouple v).heap v.defaultRef) := by
  have hrefs := decoupleVols_refs v.defaultRef v.ivo v.heap v.next
  refine ⟨hrefs.1, ?_, ?_, ?_, ?_⟩
  · exact fun m hm => decoupleVols_heap_lt v.defaultRef v.ivo v.heap v.next m hm
  · exact fun i => decoupleVols_lengths v.defaultRef v.ivo v.heap v.next i
  · exact fun i j hj => decoupleVols_values v.defaultRef v.ivo v.heap v.next hd hb i j hj
  · intro hc
    have hnd : (allRefs (decouple v).ivo).Nodup := by
      show (allRefs (decoupleVols v.defaultRef v.heap v.next v.ivo).2.2).Nodup
      rw [hrefs.2.2]
      exact freshenRefs_nodup v.defaultRef (allRefs v.ivo) v.next hb hc
    refine ⟨hnd, fun i i' hii r hr r' hr' x => ?_⟩
    have hrd : r ≠ v.defaultRef := by
      have hmem : r ∈ allRefs (decouple v).ivo :=
        refsAt_subset_allRefs (decouple v).ivo i r hr
      rw [show allRefs (decouple v).ivo =
          (freshenRefs v.defaultRef v.next (allRefs v.ivo)).1 from hrefs.2.2] at hmem
      rcases freshenRefs_mem v.defaultRef (allRefs v.ivo) v.next r hmem with
        ⟨_, hne⟩ | ⟨hge, _⟩
      · exact hne
      · omega
    have hpair : ((decouple v).ivo.map Prod.snd).Pairwise List.Disjoint := by
      have := List.nodup_flatten.mp hnd
      exact this.2
    have hrr : r ≠ r' := by
      set L := (decouple v).ivo.map Prod.snd with hL
      by_cases hi : i < L.length
      · by_cases hi' : i' < L.length
        · have hri : r ∈ L[i] := by
            have : refsAt (decouple v).ivo i = L[i] := by
              rw [refsAt, ← hL]
              exact List.getD_eq_getElem L [] hi
            rwa [this] at hr
          have hri' : r' ∈ L[i'] := by
            have : refsAt (decouple v).ivo i' = L[i'] := by
              rw [refsAt, ← hL]
              exact List.getD_eq_getElem L [] hi'
            rwa [this] at hr'
          intro heq
          subst heq
          rcases lt_or_gt_of_ne hii with hlt | hgt
          · exact (List.pairwise_iff_getElem.mp hpair i i' hi hi' hlt) hri hri'
          · exact ((List.pairwise_iff_getElem.mp hpair i' i hi' hi hgt).symm) hri hri'
        · exfalso
          have : refsAt (decouple v).ivo i' = [] := by
            rw [refsAt, ← hL]
            exact List.getD_eq_default L [] (le_of_not_lt hi')
          rw [this] at hr'
          exact absurd hr' (List.not_mem_nil _)
      · exfalso
        have : refsAt (decouple v).ivo i = [] := by
          rw [refsAt, ← hL]
          exact List.getD_eq_default L [] (le_of_not_lt hi)
        rw [this] at hr
        exact absurd hr (List.not_mem_nil _)
    exact ⟨Function.update_noteq (Ne.symm hrr) _ _,
      Function.update_noteq (Ne.symm hrd) _ _⟩

/-- Witness for C10 at the concrete viewer `hv0`. -/
theorem decouple_no_shared_default_witness :
    (hv0.defaultRef < hv0.next) ∧ (∀ r ∈ allRefs hv0.ivo, r < hv0.next) ∧
      (∀ r, r ≠ hv0.defaultRef → (allRefs hv0.ivo).count r ≤ 1) ∧
      (allRefs (decouple hv0).ivo).Nodup := by
  have hc : ∀ r, r ≠ hv0.defaultRef → (allRefs hv0.ivo).count r ≤ 1 :=
    fun r _ => List.nodup_iff_count_le_one.mp (by decide) r
  have h := decouple_no_shared_default hv0 (by decide) (by decide)
  exact ⟨by decide, by decide, hc, (h.2.2.2.2 hc).1⟩

end PyGeomTools
